import Mathlib

/-!
Verification of the two utility scripts in this repository against their
natural-language specification.

Part 1 embeds `scripts/remove_console_logs.py` (the Log Stripper).
Part 2 embeds `scripts/recolor-vscode-icon.py` (the Icon Recolorer).

Python strings are modelled as `List Char`; Python ints as `Int`/`Nat`;
Python floats as `ℚ` (the arithmetic in the scripts is exact rational
arithmetic except for the final truncation to 0-255 channels, which is
modelled explicitly). A Python function that can loop forever is modelled
with an explicit fuel parameter: `none` means the run did not finish
within the given fuel.
-/

/-! ### Part 1: the Log Stripper (`remove_console_logs.py`) -/

/-- The ASCII whitespace characters stripped by Python `str.lstrip()`. -/
def isPySpace (c : Char) : Bool :=
  c = ' ' || c = '\t' || c = '\n' || c = '\r' || c = '\x0b' || c = '\x0c'

/-- Python `line.lstrip()`. -/
def lstrip (l : List Char) : List Char := l.dropWhile isPySpace

/-- The literal characters of the marker `console.log(`. -/
def logHeadChars : List Char := "console.log(".data

/-- The test on line 22 of `remove_console_logs.py`:
`line.lstrip().startswith("console.log(")`. -/
def isLogStart (line : List Char) : Bool := logHeadChars.isPrefixOf (lstrip line)

/-- Result of scanning the characters of one line during the
parenthesis-balance scan: either the balance closed inside this line, or
the line ended with a running count and a flag still pending. The same
shape is used for the code scan (flag = `in_console_log`) and for the
spec-level scan (flag = `left zero`). -/
inductive LineScan where
  | closed : LineScan
  | more (count : Int) (flag : Bool) : LineScan
deriving DecidableEq, Repr

/-- The `for char in current_line` loop (lines 31-41 of the script):
`(` increments `paren_count` and sets `in_console_log`; `)` decrements,
and the scan closes when `in_console_log` holds and the count hits 0. -/
def scanLine : List Char → Int → Bool → LineScan
  | [], count, incl => .more count incl
  | c :: cs, count, incl =>
    if c = '(' then scanLine cs (count + 1) true
    else if c = ')' then
      if incl ∧ count - 1 = 0 then .closed
      else scanLine cs (count - 1) incl
    else scanLine cs count incl

/-- The `while j < len(lines)` loop (lines 29-46): scan successive lines
until the balance closes; `some k` means the scan closed on the line `k`
positions after the starting line, `none` means it ran off the end of the
file without closing. -/
def findClose : List (List Char) → Int → Bool → Option Nat
  | [], _, _ => none
  | l :: rest, count, incl =>
    match scanLine l count incl with
    | .closed => some 0
    | .more c b => (findClose rest c b).map (· + 1)

/-- The outer `while i < len(lines)` loop (lines 17-49), with explicit
fuel. A line whose `lstrip` starts with `console.log(` triggers the
balance scan from that line with a fresh state; on success the whole
span is skipped, and when the scan runs off the end of the file the
Python loop re-enters with `i` unchanged, which the fuel recursion
reproduces verbatim (so such a run never produces a result). Other
lines are appended to the output. -/
def removeLinesF : Nat → List (List Char) → Option (List (List Char))
  | 0, _ => none
  | _ + 1, [] => some []
  | fuel + 1, line :: rest =>
    if isLogStart line then
      match findClose (line :: rest) 0 false with
      | none => removeLinesF fuel (line :: rest)
      | some k => removeLinesF fuel (rest.drop k)
    else (removeLinesF fuel rest).map (line :: ·)

/-- Python `content.split("\n")`: split at every newline, keeping empty
pieces (`"".split("\n") == [""]`). -/
def splitNl : List Char → List (List Char)
  | [] => [[]]
  | c :: cs =>
    if c = '\n' then [] :: splitNl cs
    else
      match splitNl cs with
      | [] => [[c]]
      | l :: ls => (c :: l) :: ls

/-- Python `"\n".join(result)`. -/
def joinNl : List (List Char) → List Char
  | [] => []
  | [l] => l
  | l :: ls => l ++ '\n' :: joinNl ls

/-- `remove_console_logs(content)` (lines 8-51), with explicit fuel for
the outer loop: `none` means the run did not finish. -/
def remove_console_logs (fuel : Nat) (content : List Char) : Option (List Char) :=
  (removeLinesF fuel (splitNl content)).map joinNl

/-! ### Spec-level model of the Log Stripper scan (for the refinement claim)

The spec describes the deletion spans in terms of a pure running
parenthesis count; the following definitions follow the words of the spec
and are compared with the code-level functions above. -/

/-- Modelled from the spec: count `(` as +1 and `)` as -1 across the
characters of a line; the scan closes at the first character after which
the running count has returned to zero (the `flag` records whether the
count has ever been nonzero). -/
def specScanLine : List Char → Int → Bool → LineScan
  | [], count, lz => .more count lz
  | c :: cs, count, lz =>
    let count' := if c = '(' then count + 1 else if c = ')' then count - 1 else count
    if count' = 0 ∧ lz = true then .closed
    else specScanLine cs count' (lz || !(count' == 0))

/-- Modelled from the spec: continue the running count across subsequent
lines until it first returns to zero; `some k` is the offset of the line
on which that happens. -/
def specFindClose : List (List Char) → Int → Bool → Option Nat
  | [], _, _ => none
  | l :: rest, count, lz =>
    match specScanLine l count lz with
    | .closed => some 0
    | .more c b => (specFindClose rest c b).map (· + 1)

/-- Modelled from the spec: scan lines sequentially; a line whose
leading-whitespace-trimmed content starts with `console.log(` begins a
deletion span ending (inclusively) at the line where the running count
first returns to zero; all other lines are kept verbatim and in order.
When the count never returns to zero the span absorbs the remainder of
the file. -/
def specRemoveLines : List (List Char) → List (List Char)
  | [] => []
  | line :: rest =>
    if isLogStart line then
      match specFindClose (line :: rest) 0 false with
      | none => []
      | some k => specRemoveLines (rest.drop k)
    else line :: specRemoveLines rest
termination_by L => L.length
decreasing_by
  · simp only [List.length_drop, List.length_cons]; omega
  · simp only [List.length_cons]; omega

/-! ### Lemmas about the Log Stripper -/

/-- Once a `(` has been consumed and the running count is positive, the
code scan (with its `in_console_log` flag) and the spec scan (pure
running count) agree, and a line that does not close keeps the count
positive. -/
theorem scan_agree : ∀ (cs : List Char) (c : Int), 1 ≤ c →
    scanLine cs c true = specScanLine cs c true ∧
    ∀ c' f, scanLine cs c true = .more c' f → 1 ≤ c' ∧ f = true := by
  intro cs
  induction cs with
  | nil =>
    intro c _
    refine ⟨rfl, ?_⟩
    intro c' f h
    cases h
    exact ⟨by omega, rfl⟩
  | cons ch cs ih =>
    intro c hc
    by_cases hpo : ch = '('
    · subst hpo
      have h1 : (1:Int) ≤ c + 1 := by omega
      have hne : ¬(c + 1 = 0) := by omega
      constructor
      · show scanLine cs (c+1) true = _
        rw [specScanLine]
        simp only [if_pos rfl]
        rw [if_neg (by simp [hne])]
        simpa [hne] using (ih (c+1) h1).1
      · intro c' f h
        exact (ih (c+1) h1).2 c' f h
    · by_cases hpc : ch = ')'
      · subst hpc
        by_cases hone : c = 1
        · subst hone
          constructor
          · show (if true ∧ (1:Int) - 1 = 0 then LineScan.closed
                  else scanLine cs (1-1) true) = _
            rw [specScanLine]
            simp [hpo]
          · intro c' f h
            rw [scanLine] at h
            simp [hpo] at h
        · have h1 : (1:Int) ≤ c - 1 := by omega
          have hne : ¬(c - 1 = 0) := by omega
          constructor
          · show (if true ∧ c - 1 = 0 then LineScan.closed
                  else scanLine cs (c-1) true) = _
            rw [specScanLine]
            simp only [hpo, if_neg, if_false]
            rw [if_neg (by simp [hne]), if_neg (by simp [hne])]
            simpa [hne] using (ih (c-1) h1).1
          · intro c' f h
            rw [scanLine] at h
            simp only [hpo, if_false, reduceIte] at h
            rw [if_neg (by simp [hne])] at h
            exact (ih (c-1) h1).2 c' f h
      · have hne : ¬(c = 0) := by omega
        constructor
        · show scanLine (ch :: cs) c true = _
          rw [scanLine, specScanLine]
          simp only [hpo, hpc, if_false, reduceIte]
          rw [if_neg (by simp [hne])]
          simpa [hne] using (ih c hc).1
        · intro c' f h
          rw [scanLine] at h
          simp only [hpo, hpc, if_false, reduceIte] at h
          exact (ih c hc).2 c' f h

/-- Characters that are neither `(` nor `)` leave the fresh scan state
untouched in both scans. -/
theorem scan_nonparen : ∀ (pre cs : List Char), (∀ ch ∈ pre, ch ≠ '(' ∧ ch ≠ ')') →
    scanLine (pre ++ cs) 0 false = scanLine cs 0 false ∧
    specScanLine (pre ++ cs) 0 false = specScanLine cs 0 false := by
  intro pre
  induction pre with
  | nil => intro cs _; exact ⟨rfl, rfl⟩
  | cons ch pre ih =>
    intro cs hmem
    have hch := hmem ch (List.mem_cons_self ch pre)
    have hrest : ∀ c ∈ pre, c ≠ '(' ∧ c ≠ ')' := fun c hc => hmem c (List.mem_cons_of_mem ch hc)
    constructor
    · rw [List.cons_append, scanLine]
      simp only [hch.1, hch.2, if_false, reduceIte]
      exact (ih cs hrest).1
    · rw [List.cons_append, specScanLine]
      simp only [hch.1, hch.2, if_false, reduceIte]
      simpa using (ih cs hrest).2

/-- Stepping over the opening `(` of the marker from the fresh state. -/
theorem scan_open_step (cs : List Char) :
    scanLine ('(' :: cs) 0 false = scanLine cs 1 true ∧
    specScanLine ('(' :: cs) 0 false = specScanLine cs 1 true := by
  constructor
  · rw [scanLine]; simp
  · rw [specScanLine]; simp

/-- A line recognized as starting a `console.log(` statement decomposes
into a paren-free prefix followed by `(` and a tail. -/
theorem isLogStart_decompose (line : List Char) (h : isLogStart line = true) :
    ∃ pre tail, line = pre ++ '(' :: tail ∧ ∀ ch ∈ pre, ch ≠ '(' ∧ ch ≠ ')' := by
  unfold isLogStart at h
  rw [List.isPrefixOf_iff_prefix] at h
  obtain ⟨t, ht⟩ := h
  refine ⟨line.takeWhile isPySpace ++ "console.log".data, t, ?_, ?_⟩
  · have hsplit : line.takeWhile isPySpace ++ lstrip line = line :=
      List.takeWhile_append_dropWhile isPySpace line
    calc line = line.takeWhile isPySpace ++ lstrip line := hsplit.symm
      _ = line.takeWhile isPySpace ++ (logHeadChars ++ t) := by rw [ht]
      _ = (line.takeWhile isPySpace ++ "console.log".data) ++ '(' :: t := by
          simp [logHeadChars]
  · intro ch hch
    rcases List.mem_append.mp hch with hws | hcl
    · have hsp : isPySpace ch = true := List.mem_takeWhile_imp hws
      constructor
      · intro he; subst he; exact absurd hsp (by decide)
      · intro he; subst he; exact absurd hsp (by decide)
    · have hall : ∀ c ∈ "console.log".data, c ≠ '(' ∧ c ≠ ')' := by decide
      exact hall ch hcl

/-- From a positive running count, the code-level and spec-level
line-by-line close searches coincide. -/
theorem findClose_agree_aux : ∀ (rest : List (List Char)) (c : Int), 1 ≤ c →
    findClose rest c true = specFindClose rest c true := by
  intro rest
  induction rest with
  | nil => intro c _; rfl
  | cons l rest ih =>
    intro c hc
    rw [findClose, specFindClose, ← (scan_agree l c hc).1]
    cases hsc : scanLine l c true with
    | closed => rfl
    | more c' f =>
      obtain ⟨hc', hf⟩ := (scan_agree l c hc).2 c' f hsc
      subst hf
      show Option.map (· + 1) (findClose rest c' true)
          = Option.map (· + 1) (specFindClose rest c' true)
      rw [ih c' hc']

/-- On a span starting at a recognized `console.log(` line, the code
scan and the spec scan close on the same line (or both run off the end
of the file). -/
theorem findClose_agree (line : List Char) (rest : List (List Char))
    (h : isLogStart line = true) :
    findClose (line :: rest) 0 false = specFindClose (line :: rest) 0 false := by
  obtain ⟨pre, tail, hline, hpre⟩ := isLogStart_decompose line h
  have h1 : scanLine line 0 false = scanLine tail 1 true := by
    rw [hline, (scan_nonparen pre ('(' :: tail) hpre).1, (scan_open_step tail).1]
  have h2 : specScanLine line 0 false = specScanLine tail 1 true := by
    rw [hline, (scan_nonparen pre ('(' :: tail) hpre).2, (scan_open_step tail).2]
  rw [findClose, specFindClose, h1, h2, ← (scan_agree tail 1 le_rfl).1]
  cases hsc : scanLine tail 1 true with
  | closed => rfl
  | more c' f =>
    obtain ⟨hc', hf⟩ := (scan_agree tail 1 le_rfl).2 c' f hsc
    subst hf
    show Option.map (· + 1) (findClose rest c' true)
        = Option.map (· + 1) (specFindClose rest c' true)
    rw [findClose_agree_aux rest c' hc']

/-- When the balance scan started at a recognized line never closes, the
outer loop never advances and the run produces no result for any fuel:
the Python program loops forever. -/
theorem removeLinesF_stuck (line : List Char) (rest : List (List Char))
    (hls : isLogStart line = true)
    (hfc : findClose (line :: rest) 0 false = none) :
    ∀ fuel, removeLinesF fuel (line :: rest) = none := by
  intro fuel
  induction fuel with
  | zero => rfl
  | succ n ih =>
    rw [removeLinesF, if_pos hls, hfc]
    exact ih

/-- Every finished run of the line loop computes exactly the spec-level
span removal. -/
theorem removeLinesF_spec : ∀ (fuel : Nat) (L R : List (List Char)),
    removeLinesF fuel L = some R → specRemoveLines L = R := by
  intro fuel
  induction fuel with
  | zero => intro L R h; exact absurd h (by simp [removeLinesF])
  | succ n ih =>
    intro L R h
    cases L with
    | nil =>
      rw [removeLinesF] at h
      cases h
      rw [specRemoveLines]
    | cons line rest =>
      by_cases hls : isLogStart line
      · rw [removeLinesF, if_pos hls] at h
        cases hfc : findClose (line :: rest) 0 false with
        | none =>
          rw [hfc] at h
          have h2 : removeLinesF n (line :: rest) = some R := h
          rw [removeLinesF_stuck line rest hls hfc n] at h2
          cases h2
        | some k =>
          rw [hfc] at h
          rw [specRemoveLines, if_pos hls, ← findClose_agree line rest hls, hfc]
          exact ih (rest.drop k) R h
      · rw [removeLinesF, if_neg hls] at h
        cases hrec : removeLinesF n rest with
        | none => rw [hrec] at h; cases h
        | some R' =>
          rw [hrec] at h
          cases h
          rw [specRemoveLines, if_neg hls, ih rest R' hrec]

/-- Every line of a finished run's output is a line of the input that
the prefix test rejected. -/
theorem removeLinesF_mem : ∀ (fuel : Nat) (L R : List (List Char)),
    removeLinesF fuel L = some R →
    ∀ l ∈ R, l ∈ L ∧ isLogStart l = false := by
  intro fuel
  induction fuel with
  | zero => intro L R h; exact absurd h (by simp [removeLinesF])
  | succ n ih =>
    intro L R h
    cases L with
    | nil =>
      rw [removeLinesF] at h
      cases h
      intro l hl
      cases hl
    | cons line rest =>
      by_cases hls : isLogStart line
      · rw [removeLinesF, if_pos hls] at h
        cases hfc : findClose (line :: rest) 0 false with
        | none =>
          rw [hfc] at h
          have h2 : removeLinesF n (line :: rest) = some R := h
          rw [removeLinesF_stuck line rest hls hfc n] at h2
          cases h2
        | some k =>
          rw [hfc] at h
          intro l hl
          obtain ⟨hmem, hnl⟩ := ih (rest.drop k) R h l hl
          exact ⟨List.mem_cons_of_mem line (List.drop_subset k rest hmem), hnl⟩
      · rw [removeLinesF, if_neg hls] at h
        cases hrec : removeLinesF n rest with
        | none => rw [hrec] at h; cases h
        | some R' =>
          rw [hrec] at h
          cases h
          intro l hl
          rcases List.mem_cons.mp hl with he | hm
          · subst he
            exact ⟨List.mem_cons_self l rest, Bool.eq_false_iff.mpr hls⟩
          · obtain ⟨hmem, hnl⟩ := ih rest R' hrec l hm
            exact ⟨List.mem_cons_of_mem line hmem, hnl⟩

/-- On input in which no line passes the prefix test, the line loop
finishes and returns its input unchanged. -/
theorem removeLinesF_no_match : ∀ (L : List (List Char)),
    (∀ l ∈ L, isLogStart l = false) →
    removeLinesF (L.length + 1) L = some L := by
  intro L
  induction L with
  | nil => intro _; rfl
  | cons line rest ih =>
    intro hall
    have hline : isLogStart line = false := hall line (List.mem_cons_self line rest)
    rw [List.length_cons, removeLinesF, if_neg (by simp [hline]),
      ih (fun l hl => hall l (List.mem_cons_of_mem line hl))]
    rfl

/-- `split("\n")` never returns an empty list. -/
theorem splitNl_ne_nil : ∀ (l : List Char), splitNl l ≠ [] := by
  intro l
  cases l with
  | nil => simp [splitNl]
  | cons c cs =>
    rw [splitNl]
    by_cases h : c = '\n'
    · simp [h]
    · simp only [h, if_false, reduceIte]
      cases splitNl cs <;> simp

/-- No piece produced by `split("\n")` contains a newline. -/
theorem mem_splitNl_no_newline : ∀ (l : List Char), ∀ p ∈ splitNl l, '\n' ∉ p := by
  intro l
  induction l with
  | nil =>
    intro p hp
    rw [splitNl] at hp
    simp at hp
    simp [hp]
  | cons c cs ih =>
    intro p hp
    rw [splitNl] at hp
    by_cases h : c = '\n'
    · rw [if_pos h] at hp
      rcases List.mem_cons.mp hp with he | hm
      · simp [he]
      · exact ih p hm
    · rw [if_neg h] at hp
      cases hsp : splitNl cs with
      | nil => exact absurd hsp (splitNl_ne_nil cs)
      | cons l0 ls =>
        rw [hsp] at hp
        rcases List.mem_cons.mp hp with he | hm
        · subst he
          intro hin
          rcases List.mem_cons.mp hin with he2 | hm2
          · exact h he2.symm
          · exact ih l0 (hsp ▸ List.mem_cons_self l0 ls) hm2
        · exact ih p (hsp ▸ List.mem_cons_of_mem l0 hm)

/-- Splitting a newline-free piece returns just that piece. -/
theorem splitNl_no_newline (l : List Char) (h : '\n' ∉ l) : splitNl l = [l] := by
  induction l with
  | nil => rfl
  | cons c cs ih =>
    have hc : ¬(c = '\n') := fun he => h (he ▸ List.mem_cons_self c cs)
    have hcs : '\n' ∉ cs := fun hm => h (List.mem_cons_of_mem c hm)
    rw [splitNl, if_neg hc, ih hcs]

/-- Splitting past a newline that follows a newline-free piece. -/
theorem splitNl_append (l t : List Char) (h : '\n' ∉ l) :
    splitNl (l ++ '\n' :: t) = l :: splitNl t := by
  induction l with
  | nil => simp [splitNl]
  | cons c cs ih =>
    have hc : ¬(c = '\n') := fun he => h (he ▸ List.mem_cons_self c cs)
    have hcs : '\n' ∉ cs := fun hm => h (List.mem_cons_of_mem c hm)
    rw [List.cons_append, splitNl, if_neg hc, ih hcs]

/-- `split` is a left inverse of `join` on nonempty lists of
newline-free pieces, matching the Python `"\n".join` / `split("\n")`
pair. -/
theorem splitNl_joinNl : ∀ (L : List (List Char)), L ≠ [] →
    (∀ l ∈ L, '\n' ∉ l) → splitNl (joinNl L) = L := by
  intro L
  induction L with
  | nil => intro h _; exact absurd rfl h
  | cons l ls ih =>
    intro _ hall
    cases ls with
    | nil =>
      rw [joinNl]
      exact splitNl_no_newline l (hall l (List.mem_cons_self l []))
    | cons l2 ls2 =>
      have hl : '\n' ∉ l := hall l (List.mem_cons_self l (l2 :: ls2))
      have hrest : ∀ p ∈ l2 :: ls2, '\n' ∉ p :=
        fun p hp => hall p (List.mem_cons_of_mem l hp)
      rw [joinNl, splitNl_append l _ hl, ih (by simp) hrest]
      simp

/-! ### Claims about the Log Stripper -/

/-- C1: on an input containing a `console.log(` line whose parentheses
never balance before end of file, `remove_console_logs` does NOT
terminate: the balance scan runs off the end of the file, the outer loop
re-enters with `i` unchanged, and no amount of fuel produces a result.
The claim (and the spec) instead say the run terminates with everything
from the start line to end of file removed. -/
theorem C1_unbalanced_log_diverges :
    ∀ fuel : Nat, remove_console_logs fuel ("console.log(".data) = none := by
  intro fuel
  have hsplit : splitNl ("console.log(".data) = [("console.log(".data)] := by decide
  unfold remove_console_logs
  rw [hsplit, removeLinesF_stuck ("console.log(".data) [] (by decide) (by decide) fuel]
  rfl

/-- C5: every finished run of `remove_console_logs` deletes exactly the
line spans that begin at a line whose leading-whitespace-trimmed content
starts with `console.log(` and end, inclusively, at the line where the
running parenthesis count first returns to zero; all other lines appear
verbatim and in order (the output equals the spec-modelled removal). -/
theorem C5_remove_console_logs_refines_spec :
    ∀ (fuel : Nat) (content r : List Char),
    remove_console_logs fuel content = some r →
    r = joinNl (specRemoveLines (splitNl content)) := by
  intro fuel content r h
  unfold remove_console_logs at h
  cases hrl : removeLinesF fuel (splitNl content) with
  | none => rw [hrl] at h; cases h
  | some R =>
    rw [hrl, Option.map_some'] at h
    injection h with h
    rw [removeLinesF_spec fuel (splitNl content) R hrl]
    exact h.symm

/-- Witness for C5 at the spec's own example input. -/
theorem C5_remove_console_logs_refines_spec_witness :
    ("keep();\n").data
      = joinNl (specRemoveLines (splitNl ("console.log(\"a\");\nkeep();\n").data)) :=
  C5_remove_console_logs_refines_spec 10 (("console.log(\"a\");\nkeep();\n").data)
    (("keep();\n").data) (by decide)

/-- C7: `remove_console_logs` is idempotent: whenever a run finishes
with result `r`, some run on `r` finishes and returns `r` again. -/
theorem C7_remove_console_logs_idempotent :
    ∀ (fuel : Nat) (content r : List Char),
    remove_console_logs fuel content = some r →
    ∃ fuel2 : Nat, remove_console_logs fuel2 r = some r := by
  intro fuel content r h
  unfold remove_console_logs at h
  cases hrl : removeLinesF fuel (splitNl content) with
  | none => rw [hrl] at h; cases h
  | some R =>
    rw [hrl, Option.map_some'] at h
    injection h with h
    subst h
    have hmem := removeLinesF_mem fuel (splitNl content) R hrl
    have hnl : ∀ l ∈ R, '\n' ∉ l :=
      fun l hl => mem_splitNl_no_newline content l (hmem l hl).1
    have hnm : ∀ l ∈ R, isLogStart l = false := fun l hl => (hmem l hl).2
    cases R with
    | nil => exact ⟨2, by decide⟩
    | cons l0 ls =>
      refine ⟨(l0 :: ls).length + 1, ?_⟩
      unfold remove_console_logs
      rw [splitNl_joinNl (l0 :: ls) (by simp) hnl,
        removeLinesF_no_match (l0 :: ls) hnm]
      rfl

/-- Witness for C7 at a concrete input. -/
theorem C7_remove_console_logs_idempotent_witness :
    ∃ fuel2 : Nat, remove_console_logs fuel2 (("keep();").data) = some (("keep();").data) :=
  C7_remove_console_logs_idempotent 10 (("console.log(1);\nkeep();").data)
    (("keep();").data) (by decide)

/-- C10: no line of a finished run's output is recognized by the
stripper itself as starting a `console.log(` statement. -/
theorem C10_output_has_no_log_lines :
    ∀ (fuel : Nat) (content r : List Char),
    remove_console_logs fuel content = some r →
    ∀ line ∈ splitNl r, isLogStart line = false := by
  intro fuel content r h
  unfold remove_console_logs at h
  cases hrl : removeLinesF fuel (splitNl content) with
  | none => rw [hrl] at h; cases h
  | some R =>
    rw [hrl, Option.map_some'] at h
    injection h with h
    subst h
    have hmem := removeLinesF_mem fuel (splitNl content) R hrl
    have hnm : ∀ l ∈ R, isLogStart l = false := fun l hl => (hmem l hl).2
    cases R with
    | nil =>
      intro line hline
      have : splitNl (joinNl []) = [[]] := by decide
      rw [this] at hline
      rcases List.mem_cons.mp hline with he | hm
      · subst he; decide
      · cases hm
    | cons l0 ls =>
      have hnl : ∀ l ∈ l0 :: ls, '\n' ∉ l :=
        fun l hl => mem_splitNl_no_newline content l (hmem l hl).1
      rw [splitNl_joinNl (l0 :: ls) (by simp) hnl]
      exact hnm

/-- Witness for C10 at a concrete input. -/
theorem C10_output_has_no_log_lines_witness :
    isLogStart (("ok();").data) = false :=
  C10_output_has_no_log_lines 10 (("  console.log(1);\nok();").data) (("ok();").data)
    (by decide) (("ok();").data) (by decide)

/-! ### Part 2: the Icon Recolorer (`recolor-vscode-icon.py`)

Python floats are modelled as exact rationals; `int(...)` applied to a
float is truncation toward zero, modelled by `pyTrunc`. Image channels
are 0-255 naturals (the image is converted to RGBA before processing, so
every pixel has four channels). -/

/-- Python `int(x)` on a float: truncation toward zero. -/
def pyTrunc (q : ℚ) : Int := if q < 0 then ⌈q⌉ else ⌊q⌋

/-- Value of a hexadecimal digit, as accepted by Python `int(x, 16)`. -/
def hexDigitVal (c : Char) : Option Nat :=
  if '0' ≤ c ∧ c ≤ '9' then some (c.toNat - '0'.toNat)
  else if 'a' ≤ c ∧ c ≤ 'f' then some (c.toNat - 'a'.toNat + 10)
  else if 'A' ≤ c ∧ c ≤ 'F' then some (c.toNat - 'A'.toNat + 10)
  else none

/-- Value of a decimal digit, as accepted by Python `int(x)`. -/
def decDigitVal (c : Char) : Option Nat :=
  if '0' ≤ c ∧ c ≤ '9' then some (c.toNat - '0'.toNat) else none

/-- Whitespace stripping that Python `int(str)` performs on both ends. -/
def stripWs (l : List Char) : List Char :=
  ((l.dropWhile isPySpace).reverse.dropWhile isPySpace).reverse

/-- Digit-run parser for Python `int(str, base)`: single underscores are
allowed between digits only. -/
def parseDigitsAux (digitVal : Char → Option Nat) (base : Nat) : Nat → List Char → Option Nat
  | acc, [] => some acc
  | acc, '_' :: rest =>
    match rest with
    | [] => none
    | c :: rest2 =>
      match digitVal c with
      | none => none
      | some d => parseDigitsAux digitVal base (base * acc + d) rest2
  | acc, c :: rest =>
    match digitVal c with
    | none => none
    | some d => parseDigitsAux digitVal base (base * acc + d) rest

/-- Nonempty digit run (no leading underscore). -/
def parseDigits (digitVal : Char → Option Nat) (base : Nat) : List Char → Option Nat
  | [] => none
  | '_' :: _ => none
  | c :: rest =>
    match digitVal c with
    | none => none
    | some d => parseDigitsAux digitVal base d rest

/-- Python `int(s, base)` on the short strings this script feeds it:
optional surrounding ASCII whitespace, optional sign, then a digit run.
(The `0x`/`0o`/`0b` prefix forms cannot occur in the at-most-2-character
slices `hex_to_rgb` produces, so they are not modelled.) -/
def pyIntStr (digitVal : Char → Option Nat) (base : Nat) (s : List Char) : Option Int :=
  match stripWs s with
  | '+' :: rest => (parseDigits digitVal base rest).map fun n => (n : Int)
  | '-' :: rest => (parseDigits digitVal base rest).map fun n => -(n : Int)
  | rest => (parseDigits digitVal base rest).map fun n => (n : Int)

/-- `hex_to_rgb` (lines 23-26): strip every leading `#`, then parse the
three 2-character slices at offsets 0, 2, 4 in base 16; `none` models
the `ValueError` raised when any slice fails to parse (in particular an
empty slice). -/
def hex_to_rgb (s : String) : Option (Int × Int × Int) :=
  let cs := s.data.dropWhile fun c => c = '#'
  match pyIntStr hexDigitVal 16 ((cs.drop 0).take 2),
      pyIntStr hexDigitVal 16 ((cs.drop 2).take 2),
      pyIntStr hexDigitVal 16 ((cs.drop 4).take 2) with
  | some r, some g, some b => some (r, g, b)
  | _, _, _ => none

/-- Python truthiness of the optional `--hex` string argument. -/
def pyTruthyStr : Option String → Bool
  | none => false
  | some s => !(s == "")

/-- The distinct validation error messages printed by `main`
(lines 265-309); each constructor stands for one specific message
(the `rgbOutOfRange` index selects the R, G or B message). -/
inductive ColorError where
  | bothColorForms : ColorError
  | neitherColorForm : ColorError
  | invalidHexColor : ColorError
  | rgbNotNumbers : ColorError
  | rgbWrongCount : ColorError
  | rgbOutOfRange (i : Nat) : ColorError
  | invalidHexOption : ColorError
deriving DecidableEq, Repr

/-- Outcome of the color validation in `main`: either a target color or
a specific validation error (printed message plus exit code 1). -/
inductive ColorResult where
  | ok (rgb : Int × Int × Int) : ColorResult
  | err (e : ColorError) : ColorResult
deriving DecidableEq, Repr

/-- `[int(x) for x in args.color]`: the first failure aborts. -/
def parseAllInts : List String → Option (List Int)
  | [] => some []
  | s :: rest =>
    match pyIntStr decDigitVal 10 s.data with
    | none => none
    | some v => (parseAllInts rest).map (v :: ·)

/-- The color-determination logic of `main` (lines 265-309): mutual
exclusion of the two color forms, then either the positional-hex path,
the positional-RGB path (integer parse, count check, 0-255 range checks
in order R, G, B), or the `--hex` path. A `ColorResult.err` models
printing that specific message and returning exit code 1 before any
image processing begins. -/
def determineTargetRgb (colorArgs : List String) (hexOpt : Option String) : ColorResult :=
  if colorArgs ≠ [] ∧ pyTruthyStr hexOpt = true then .err .bothColorForms
  else if colorArgs = [] ∧ pyTruthyStr hexOpt = false then .err .neitherColorForm
  else if colorArgs ≠ [] then
    if colorArgs.length = 1 ∧ ['#'].isPrefixOf (colorArgs.headD "").data then
      match hex_to_rgb (colorArgs.headD "") with
      | some rgb => .ok rgb
      | none => .err .invalidHexColor
    else
      match parseAllInts colorArgs with
      | none => .err .rgbNotNumbers
      | some vals =>
        match vals with
        | [v0, v1, v2] =>
          if ¬(0 ≤ v0 ∧ v0 ≤ 255) then .err (.rgbOutOfRange 0)
          else if ¬(0 ≤ v1 ∧ v1 ≤ 255) then .err (.rgbOutOfRange 1)
          else if ¬(0 ≤ v2 ∧ v2 ≤ 255) then .err (.rgbOutOfRange 2)
          else .ok (v0, v1, v2)
        | _ => .err .rgbWrongCount
  else
    match hexOpt with
    | some hx =>
      match hex_to_rgb hx with
      | some rgb => .ok rgb
      | none => .err .invalidHexOption
    | none => .err .neitherColorForm

/-- From the claim words: a `#`-prefixed string of exactly 6 hexadecimal
digits (the well-formed hex color form). -/
def isCanonicalHexString (s : String) : Bool :=
  match s.data with
  | '#' :: rest => rest.length == 6 && rest.all fun c => (hexDigitVal c).isSome
  | _ => false

/-- `colorsys.rgb_to_hsv` over exact rationals. -/
def colorsysRgbToHsv (r g b : ℚ) : ℚ × ℚ × ℚ :=
  let maxc := max r (max g b)
  let minc := min r (min g b)
  let rangec := maxc - minc
  let v := maxc
  if minc = maxc then (0, 0, v)
  else
    let s := rangec / maxc
    let rc := (maxc - r) / rangec
    let gc := (maxc - g) / rangec
    let bc := (maxc - b) / rangec
    let h := if r = maxc then bc - gc else if g = maxc then 2 + rc - bc else 4 + gc - rc
    (Int.fract (h / 6), s, v)

/-- `colorsys.hsv_to_rgb` over exact rationals (`i % 6` lies in `[0, 6)`,
so the final arm is the `i % 6 == 5` case). -/
def colorsysHsvToRgb (h s v : ℚ) : ℚ × ℚ × ℚ :=
  if s = 0 then (v, v, v)
  else
    let i : Int := pyTrunc (h * 6)
    let f : ℚ := h * 6 - i
    let p := v * (1 - s)
    let q := v * (1 - s * f)
    let t := v * (1 - s * (1 - f))
    let j := i % 6
    if j = 0 then (v, t, p)
    else if j = 1 then (q, v, p)
    else if j = 2 then (p, v, t)
    else if j = 3 then (p, q, v)
    else if j = 4 then (t, p, v)
    else (v, p, q)

/-- The script wrapper `rgb_to_hsv` (lines 29-31): channels are divided
by 255 before conversion. -/
def rgb_to_hsv (r g b : ℚ) : ℚ × ℚ × ℚ :=
  colorsysRgbToHsv (r / 255) (g / 255) (b / 255)

/-- The script wrapper `hsv_to_rgb` (lines 34-37): convert, scale by 255
and truncate each channel with `int(...)`. -/
def hsv_to_rgb (h s v : ℚ) : Int × Int × Int :=
  let c := colorsysHsvToRgb h s v
  (pyTrunc (c.1 * 255), pyTrunc (c.2.1 * 255), pyTrunc (c.2.2 * 255))

/-- The three reference blues of `is_blue_pixel` (lines 53-57). -/
def vscodeBlues : List (Nat × Nat × Nat) := [(0, 122, 204), (37, 99, 235), (59, 130, 246)]

/-- `is_blue_pixel` (lines 40-67): dominant-blue test, then the
per-channel tolerance test against the three reference blues. -/
def is_blue_pixel (r g b : Nat) (tolerance : Int) : Bool :=
  if b > r ∧ b > g ∧ b > 100 then true
  else vscodeBlues.any fun t =>
    decide (|(r : Int) - t.1| < tolerance ∧ |(g : Int) - t.2.1| < tolerance ∧
      |(b : Int) - t.2.2| < tolerance)

/-- The per-pixel body of the recoloring loop (lines 111-138), on RGBA
pixels (the image is converted to RGBA first, so `len(pixel) == 4`):
transparent pixels are skipped; blue pixels are rewritten either with
the target hue and the original saturation/value (preserve-brightness)
or with the flat target color; alpha is carried over. -/
def processPixel (targetRgb : Nat × Nat × Nat) (tolerance : Int) (preserve : Bool)
    (px : Nat × Nat × Nat × Nat) : Nat × Nat × Nat × Nat :=
  if px.2.2.2 = 0 then px
  else if is_blue_pixel px.1 px.2.1 px.2.2.1 tolerance then
    if preserve then
      let t := rgb_to_hsv (targetRgb.1 : ℚ) (targetRgb.2.1 : ℚ) (targetRgb.2.2 : ℚ)
      let o := rgb_to_hsv (px.1 : ℚ) (px.2.1 : ℚ) (px.2.2.1 : ℚ)
      let n := hsv_to_rgb t.1 o.2.1 o.2.2
      (n.1.toNat, n.2.1.toNat, n.2.2.toNat, px.2.2.2)
    else (targetRgb.1, targetRgb.2.1, targetRgb.2.2, px.2.2.2)
  else px

/-- The ICO size-list computation for desktop mode (lines 149-161). -/
def icoSizesDesktop (w h : Nat) : List (Nat × Nat) :=
  let sizes : List (Nat × Nat) :=
    [(16, 16), (32, 32), (48, 48), (64, 64), (128, 128), (256, 256)]
  if 256 < w ∨ 256 < h then
    let sizes2 := if 512 ≤ w ∧ 512 ≤ h then sizes ++ [(512, 512)] else sizes
    let maxSize := min (min w h) 1024
    if 256 < maxSize then sizes2 ++ [(maxSize, maxSize)] else sizes2
  else sizes

/-- The ICO size list (lines 148-164): desktop mode uses the extended
computation, otherwise the four standard sizes. -/
def icoSizes (desktopMode : Bool) (w h : Nat) : List (Nat × Nat) :=
  if desktopMode then icoSizesDesktop w h
  else [(16, 16), (32, 32), (48, 48), (64, 64)]

/-- Pixel dimensions of the images appended for the ICO container
(lines 169-174): a copy of the image when the size matches, otherwise a
resize to exactly that size. The declared size list passed to `save`
(line 180) reads these dimensions back. -/
def buildIcoImages (imgSize : Nat × Nat) (sizes : List (Nat × Nat)) : List (Nat × Nat) :=
  sizes.map fun size => if imgSize ≠ size then size else imgSize

/-! ### Claims C4, C9 (pixel classification and alpha preservation) -/

/-- C4: the primary reference blue (0,122,204) is always classified as
blue, for every tolerance at least 0 (indeed the dominant-blue branch
fires before tolerance is consulted). -/
theorem C4_reference_blue_classified (tolerance : Int) (h : 0 ≤ tolerance) :
    is_blue_pixel 0 122 204 tolerance = true := rfl

/-- Witness for C4 at the default tolerance 30. -/
theorem C4_reference_blue_classified_witness :
    0 ≤ (30 : Int) ∧ is_blue_pixel 0 122 204 30 = true :=
  ⟨by decide, C4_reference_blue_classified 30 (by decide)⟩

/-- C9: a pixel with alpha 0 is returned byte-for-byte unchanged, and
the written pixel always carries the original alpha channel. -/
theorem C9_alpha_preserved (targetRgb : Nat × Nat × Nat) (tolerance : Int)
    (preserve : Bool) (px : Nat × Nat × Nat × Nat) :
    (px.2.2.2 = 0 → processPixel targetRgb tolerance preserve px = px) ∧
    (processPixel targetRgb tolerance preserve px).2.2.2 = px.2.2.2 := by
  constructor
  · intro h
    unfold processPixel
    rw [if_pos h]
  · unfold processPixel
    by_cases h : px.2.2.2 = 0
    · rw [if_pos h]
    · rw [if_neg h]
      by_cases hb : is_blue_pixel px.1 px.2.1 px.2.2.1 tolerance = true
      · rw [if_pos hb]
        cases preserve <;> simp
      · rw [if_neg hb]

/-- Witness for C9 at a concrete transparent pixel. -/
theorem C9_alpha_preserved_witness :
    (((5, 5, 5, 0) : Nat × Nat × Nat × Nat).2.2.2 = 0 →
      processPixel (0, 0, 0) 30 true (5, 5, 5, 0) = (5, 5, 5, 0)) ∧
    (processPixel (0, 0, 0) 30 true ((5, 5, 5, 0) : Nat × Nat × Nat × Nat)).2.2.2
      = ((5, 5, 5, 0) : Nat × Nat × Nat × Nat).2.2.2 :=
  C9_alpha_preserved (0, 0, 0) 30 true (5, 5, 5, 0)

/-! ### Claims C2, C3 (ICO size list) -/

/-- Counterexample to C2 as stated: for a 300x300 source in desktop
mode the size 300 (beyond 256) is added even though the dimensions are
not both at least 512. -/
theorem C2_counterexample :
    icoSizes true 300 300
      = [(16, 16), (32, 32), (48, 48), (64, 64), (128, 128), (256, 256), (300, 300)]
    ∧ ¬(512 ≤ 300 ∧ 512 ≤ 300)
    ∧ ∃ p ∈ icoSizes true 300 300, 256 < p.1 := by decide

/-- Membership in a conditionally empty list. -/
theorem mem_ite_nil {a : Type} (c : Prop) [Decidable c] (l : List a) (x : a) :
    (x ∈ if c then l else []) ↔ c ∧ x ∈ l := by
  split_ifs with h <;> simp [h]

/-- Normal form of the desktop ICO size list. -/
theorem icoSizesDesktop_eq (w h : Nat) :
    icoSizesDesktop w h
      = [(16, 16), (32, 32), (48, 48), (64, 64), (128, 128), (256, 256)]
        ++ (if (256 < w ∨ 256 < h) ∧ 512 ≤ w ∧ 512 ≤ h then [(512, 512)] else [])
        ++ (if (256 < w ∨ 256 < h) ∧ 256 < min (min w h) 1024 then
              [(min (min w h) 1024, min (min w h) 1024)] else []) := by
  unfold icoSizesDesktop
  split_ifs <;>
    simp only [List.append_assoc, List.cons_append, List.nil_append, List.append_nil] <;>
    first
      | rfl
      | (exfalso; omega)
      | (split_ifs <;> first | rfl | (exfalso; omega))

/-- C2 amended: in desktop mode with `.ico` output, 512 is added if and
only if both dimensions are at least 512, but a size beyond 256
(namely `min(w, h, 1024)`) is added exactly when `min(w, h)` exceeds
256, not only when both dimensions reach 512. -/
theorem C2_desktop_ico_sizes (w h : Nat) :
    ((512, 512) ∈ icoSizes true w h ↔ 512 ≤ w ∧ 512 ≤ h) ∧
    ((∃ p ∈ icoSizes true w h, 256 < p.1) ↔ 256 < min w h) ∧
    (256 < min w h →
      (min (min w h) 1024, min (min w h) 1024) ∈ icoSizes true w h) := by
  have hico : icoSizes true w h = icoSizesDesktop w h := by simp [icoSizes]
  have hchar : ∀ p : Nat × Nat, p ∈ icoSizes true w h ↔
      ((p = (16, 16) ∨ p = (32, 32) ∨ p = (48, 48) ∨ p = (64, 64)
          ∨ p = (128, 128) ∨ p = (256, 256))
        ∨ ((256 < w ∨ 256 < h) ∧ 512 ≤ w ∧ 512 ≤ h) ∧ p = (512, 512))
      ∨ ((256 < w ∨ 256 < h) ∧ 256 < min (min w h) 1024)
          ∧ p = (min (min w h) 1024, min (min w h) 1024) := by
    intro p
    rw [hico, icoSizesDesktop_eq]
    simp only [List.mem_append, mem_ite_nil, List.mem_cons, List.mem_singleton,
      List.not_mem_nil, or_false]
  refine ⟨?_, ?_, ?_⟩
  · rw [hchar (512, 512)]
    constructor
    · intro hm
      rcases hm with (hb | ⟨⟨_, hb⟩, _⟩) | ⟨⟨_, hm2⟩, he⟩
      · rcases hb with hb | hb | hb | hb | hb | hb <;> simp [Prod.mk.injEq] at hb
      · exact hb
      · have he2 : 512 = min (min w h) 1024 := congrArg Prod.fst he
        omega
    · intro hboth
      left; right
      exact ⟨⟨Or.inl (by omega), hboth⟩, rfl⟩
  · constructor
    · rintro ⟨p, hp, hgt⟩
      rw [hchar p] at hp
      rcases hp with (hb | ⟨⟨_, h5⟩, he⟩) | ⟨⟨_, hm⟩, he⟩
      · rcases hb with rfl | rfl | rfl | rfl | rfl | rfl <;> simp at hgt
      · omega
      · subst he
        simp at hgt
        omega
    · intro hmin
      refine ⟨(min (min w h) 1024, min (min w h) 1024), ?_, by simp; omega⟩
      rw [hchar _]
      right
      exact ⟨⟨Or.inl (by omega), by omega⟩, rfl⟩
  · intro hmin
    rw [hchar _]
    right
    exact ⟨⟨Or.inl (by omega), by omega⟩, rfl⟩

/-- Witness for C2 at a 600x700 source. -/
theorem C2_desktop_ico_sizes_witness :
    (600, 600) ∈ icoSizes true 600 700 :=
  (C2_desktop_ico_sizes 600 700).2.2 (by decide)

/-- Counterexample to C3 as stated: for a 512x512 source in desktop
mode the computed size list contains (512,512) twice, so the declared
ICO size list has a duplicate. -/
theorem C3_counterexample :
    icoSizes true 512 512
      = [(16, 16), (32, 32), (48, 48), (64, 64), (128, 128), (256, 256),
         (512, 512), (512, 512)]
    ∧ ¬ (icoSizes true 512 512).Nodup := by decide

/-- Every image appended for the ICO container has exactly the
dimensions of its slot in the computed size list. -/
theorem buildIcoImages_eq (imgSize : Nat × Nat) :
    ∀ sizes, buildIcoImages imgSize sizes = sizes := by
  intro sizes
  induction sizes with
  | nil => rfl
  | cons a l ih =>
    show (if imgSize ≠ a then a else imgSize) :: buildIcoImages imgSize l = a :: l
    rw [ih]
    by_cases h : imgSize = a
    · rw [if_neg (not_not_intro h), h]
    · rw [if_pos h]

/-- C3 amended: the embedded images carry exactly the computed size
list (each image's pixel dimensions equal its declared size), but the
computed list is duplicate-free only when it is NOT the case that
desktop mode is set and `min(w, h) = 512`; in that case (512,512)
appears twice. -/
theorem C3_ico_image_sizes (desktopMode : Bool) (w h : Nat) :
    buildIcoImages (w, h) (icoSizes desktopMode w h) = icoSizes desktopMode w h ∧
    ((icoSizes desktopMode w h).Nodup ↔ ¬(desktopMode = true ∧ min w h = 512)) := by
  refine ⟨buildIcoImages_eq (w, h) (icoSizes desktopMode w h), ?_⟩
  cases desktopMode with
  | false =>
    have hval : icoSizes false w h = [(16, 16), (32, 32), (48, 48), (64, 64)] := by
      simp [icoSizes]
    rw [hval]
    constructor
    · rintro _ ⟨hc, _⟩
      cases hc
    · intro _
      decide
  | true =>
    have hico : icoSizes true w h = icoSizesDesktop w h := by simp [icoSizes]
    rw [hico, icoSizesDesktop_eq]
    simp only [eq_self_iff_true, true_and]
    by_cases h1 : 256 < w ∨ 256 < h
    · by_cases h2 : 512 ≤ w ∧ 512 ≤ h
      · rw [if_pos ⟨h1, h2⟩, if_pos ⟨h1, by omega⟩]
        simp only [List.cons_append, List.nil_append, List.singleton_append]
        simp [List.nodup_cons, List.mem_cons, List.mem_singleton, Prod.mk.injEq]
        omega
      · rw [if_neg (fun hx => h2 hx.2)]
        by_cases h3 : 256 < min (min w h) 1024
        · rw [if_pos ⟨h1, h3⟩]
          simp only [List.cons_append, List.nil_append, List.singleton_append]
          simp [List.nodup_cons, List.mem_cons, List.mem_singleton, Prod.mk.injEq]
          omega
        · rw [if_neg (fun hx => h3 hx.2), List.append_nil, List.append_nil]
          exact iff_of_true (by decide) (by omega)
    · rw [if_neg (fun hx => h1 hx.1), if_neg (fun hx => h1 hx.1),
        List.append_nil, List.append_nil]
      exact iff_of_true (by decide) (by omega)

/-- Witness for C3 at a 100x100 source without desktop mode. -/
theorem C3_ico_image_sizes_witness :
    buildIcoImages (100, 100) (icoSizes false 100 100) = icoSizes false 100 100 ∧
    ((icoSizes false 100 100).Nodup ↔ ¬(false = true ∧ min 100 100 = 512)) :=
  C3_ico_image_sizes false 100 100

/-! ### Claim C8 (hex color validation) -/

/-- Counterexample to C8 as stated: the malformed hex argument
`#12345` (five digits, not six) is accepted by `hex_to_rgb`, so `main`
proceeds with the color (18, 52, 5) instead of printing an error and
returning failure. -/
theorem C8_counterexample :
    determineTargetRgb ["#12345"] none = .ok (18, 52, 5)
    ∧ isCanonicalHexString "#12345" = false := by decide

/-- C8 amended: a hex argument on which `hex_to_rgb` raises (one of the
three 2-character slices fails to parse as a base-16 integer) makes
`main` print the invalid-hex message and return failure before any
image processing, on both the positional path and the `--hex` path; but
acceptance is strictly broader than the 6-hex-digit form (see the
counterexample). -/
theorem C8_failed_hex_parse_rejected (s : String)
    (hpre : ['#'].isPrefixOf s.data = true)
    (hbad : hex_to_rgb s = none) :
    determineTargetRgb [s] none = .err .invalidHexColor ∧
    determineTargetRgb [] (some s) = .err .invalidHexOption := by
  have hne : s ≠ "" := by
    intro he
    subst he
    simp [List.isPrefixOf] at hpre
  constructor
  · have hcond : ¬(([s] : List String) ≠ [] ∧ pyTruthyStr none = true) := by
      simp [pyTruthyStr]
    unfold determineTargetRgb
    rw [if_neg hcond, if_neg (by simp [pyTruthyStr]), if_pos (by simp),
      if_pos (by simpa using hpre)]
    simp only [List.headD] at hbad ⊢
    rw [hbad]
  · have htr : pyTruthyStr (some s) = true := by
      simp [pyTruthyStr, hne]
    have hstep : determineTargetRgb [] (some s)
        = (match hex_to_rgb s with
           | some rgb => ColorResult.ok rgb
           | none => ColorResult.err ColorError.invalidHexOption) := by
      unfold determineTargetRgb
      rw [if_neg (by simp), if_neg (by simp [htr]), if_neg (by simp)]
    rw [hstep, hbad]

/-- Witness for C8 at a concrete malformed hex argument. -/
theorem C8_failed_hex_parse_rejected_witness :
    determineTargetRgb ["#zz1122"] none = .err .invalidHexColor ∧
    determineTargetRgb [] (some "#zz1122") = .err .invalidHexOption :=
  C8_failed_hex_parse_rejected "#zz1122" (by decide) (by decide)

/-! ### Claim C6 (hue-preserving recolor)

The exact-rational content of the colorsys pair: converting HSV to RGB
and back returns the hue, saturation and value unchanged, provided the
saturation and value are nonzero (for s = 0 the hue collapses to 0). -/

/-- Evaluation of `colorsys.rgb_to_hsv` on a triple with known maximum
`v` and known minimum `v * (1 - s)`. -/
theorem rgbToHsv_eval (x y z v s : ℚ) (hv : 0 < v) (hs : 0 < s)
    (hmax : max x (max y z) = v) (hmin : min x (min y z) = v * (1 - s)) :
    colorsysRgbToHsv x y z
      = (Int.fract ((if x = v then (v - z) / (v * s) - (v - y) / (v * s)
          else if y = v then 2 + (v - x) / (v * s) - (v - z) / (v * s)
          else 4 + (v - y) / (v * s) - (v - x) / (v * s)) / 6),
         s, v) := by
  have hvs : v - v * (1 - s) = v * s := by ring
  have hne : ¬(v * (1 - s) = v) := by
    intro he
    nlinarith [mul_pos hv hs]
  have hs2 : v * s / v = s := by
    rw [mul_comm, mul_div_assoc, div_self (ne_of_gt hv), mul_one]
  simp only [colorsysRgbToHsv]
  rw [hmax, hmin, if_neg hne, hvs, hs2]

/-- Round trip through the `i % 6 = 0` arm of `hsv_to_rgb`. -/
theorem roundtrip_core0 (s v f : ℚ) (hs0 : 0 < s) (hv : 0 < v)
    (hf0 : 0 ≤ f) (hf1 : f < 1) :
    colorsysRgbToHsv v (v * (1 - s * (1 - f))) (v * (1 - s))
      = (Int.fract (f / 6), s, v) := by
  have hvs : (0:ℚ) < v * s := mul_pos hv hs0
  have hvs' : v * s ≠ 0 := ne_of_gt hvs
  have hpt : v * (1 - s) ≤ v * (1 - s * (1 - f)) := by nlinarith
  have htv : v * (1 - s * (1 - f)) ≤ v := by nlinarith
  have hpv : v * (1 - s) < v := by nlinarith
  have hmax : max v (max (v * (1 - s * (1 - f))) (v * (1 - s))) = v :=
    max_eq_left (max_le htv hpv.le)
  have hmin : min v (min (v * (1 - s * (1 - f))) (v * (1 - s))) = v * (1 - s) := by
    rw [min_eq_right hpt, min_eq_right hpv.le]
  rw [rgbToHsv_eval v (v * (1 - s * (1 - f))) (v * (1 - s)) v s hv hs0 hmax hmin,
    if_pos rfl]
  congr 2
  field_simp
  ring

/-- Round trip through the `i % 6 = 1` arm of `hsv_to_rgb` (the tie
`f = 0` lands in the red-maximum branch of `rgb_to_hsv` and still
recovers the hue). -/
theorem roundtrip_core1 (s v f : ℚ) (hs0 : 0 < s) (hv : 0 < v)
    (hf0 : 0 ≤ f) (hf1 : f < 1) :
    colorsysRgbToHsv (v * (1 - s * f)) v (v * (1 - s))
      = (Int.fract ((1 + f) / 6), s, v) := by
  have hvs : (0:ℚ) < v * s := mul_pos hv hs0
  have hvs' : v * s ≠ 0 := ne_of_gt hvs
  have hpv : v * (1 - s) < v := by nlinarith
  have hqv : v * (1 - s * f) ≤ v := by nlinarith
  have hpq : v * (1 - s) ≤ v * (1 - s * f) := by nlinarith
  have hmax : max (v * (1 - s * f)) (max v (v * (1 - s))) = v := by
    rw [max_eq_left hpv.le, max_eq_right hqv]
  have hmin : min (v * (1 - s * f)) (min v (v * (1 - s))) = v * (1 - s) := by
    rw [min_eq_right hpv.le, min_eq_right hpq]
  rw [rgbToHsv_eval _ _ _ v s hv hs0 hmax hmin]
  by_cases hf : f = 0
  · subst hf
    rw [if_pos (by ring)]
    congr 2
    field_simp
    ring
  · have hne : ¬(v * (1 - s * f) = v) := by
      intro he
      have h1 : v * s * f = 0 := by linear_combination -he
      rcases mul_eq_zero.mp h1 with h2 | h2
      · exact hvs' h2
      · exact hf h2
    rw [if_neg hne, if_pos rfl]
    congr 2
    field_simp
    ring

/-- Round trip through the `i % 6 = 2` arm of `hsv_to_rgb`. -/
theorem roundtrip_core2 (s v f : ℚ) (hs0 : 0 < s) (hv : 0 < v)
    (hf0 : 0 ≤ f) (hf1 : f < 1) :
    colorsysRgbToHsv (v * (1 - s)) v (v * (1 - s * (1 - f)))
      = (Int.fract ((2 + f) / 6), s, v) := by
  have hvs : (0:ℚ) < v * s := mul_pos hv hs0
  have hvs' : v * s ≠ 0 := ne_of_gt hvs
  have hpv : v * (1 - s) < v := by nlinarith
  have htv : v * (1 - s * (1 - f)) ≤ v := by nlinarith
  have hpt : v * (1 - s) ≤ v * (1 - s * (1 - f)) := by nlinarith
  have hmax : max (v * (1 - s)) (max v (v * (1 - s * (1 - f)))) = v := by
    rw [max_eq_left htv, max_eq_right hpv.le]
  have hmin : min (v * (1 - s)) (min v (v * (1 - s * (1 - f)))) = v * (1 - s) := by
    rw [min_eq_right htv, min_eq_left hpt]
  rw [rgbToHsv_eval _ _ _ v s hv hs0 hmax hmin, if_neg (ne_of_lt hpv), if_pos rfl]
  congr 2
  field_simp
  ring

/-- Round trip through the `i % 6 = 3` arm of `hsv_to_rgb` (with the
tie `f = 0` in the green-maximum branch). -/
theorem roundtrip_core3 (s v f : ℚ) (hs0 : 0 < s) (hv : 0 < v)
    (hf0 : 0 ≤ f) (hf1 : f < 1) :
    colorsysRgbToHsv (v * (1 - s)) (v * (1 - s * f)) v
      = (Int.fract ((3 + f) / 6), s, v) := by
  have hvs : (0:ℚ) < v * s := mul_pos hv hs0
  have hvs' : v * s ≠ 0 := ne_of_gt hvs
  have hpv : v * (1 - s) < v := by nlinarith
  have hqv : v * (1 - s * f) ≤ v := by nlinarith
  have hpq : v * (1 - s) ≤ v * (1 - s * f) := by nlinarith
  have hmax : max (v * (1 - s)) (max (v * (1 - s * f)) v) = v := by
    rw [max_eq_right hqv, max_eq_right hpv.le]
  have hmin : min (v * (1 - s)) (min (v * (1 - s * f)) v) = v * (1 - s) := by
    rw [min_eq_left hqv, min_eq_left hpq]
  rw [rgbToHsv_eval _ _ _ v s hv hs0 hmax hmin, if_neg (ne_of_lt hpv)]
  by_cases hf : f = 0
  · subst hf
    rw [if_pos (by ring)]
    congr 2
    field_simp
    ring
  · have hne : ¬(v * (1 - s * f) = v) := by
      intro he
      have h1 : v * s * f = 0 := by linear_combination -he
      rcases mul_eq_zero.mp h1 with h2 | h2
      · exact hvs' h2
      · exact hf h2
    rw [if_neg hne]
    congr 2
    field_simp
    ring

/-- Round trip through the `i % 6 = 4` arm of `hsv_to_rgb`. -/
theorem roundtrip_core4 (s v f : ℚ) (hs0 : 0 < s) (hv : 0 < v)
    (hf0 : 0 ≤ f) (hf1 : f < 1) :
    colorsysRgbToHsv (v * (1 - s * (1 - f))) (v * (1 - s)) v
      = (Int.fract ((4 + f) / 6), s, v) := by
  have hvs : (0:ℚ) < v * s := mul_pos hv hs0
  have hvs' : v * s ≠ 0 := ne_of_gt hvs
  have hpv : v * (1 - s) < v := by nlinarith
  have htv : v * (1 - s * (1 - f)) ≤ v := by nlinarith
  have hpt : v * (1 - s) ≤ v * (1 - s * (1 - f)) := by nlinarith
  have htne : ¬(v * (1 - s * (1 - f)) = v) := by
    intro he
    have h1 : v * s * (1 - f) = 0 := by linear_combination -he
    rcases mul_eq_zero.mp h1 with h2 | h2
    · exact hvs' h2
    · nlinarith
  have hmax : max (v * (1 - s * (1 - f))) (max (v * (1 - s)) v) = v := by
    rw [max_eq_right hpv.le, max_eq_right htv]
  have hmin : min (v * (1 - s * (1 - f))) (min (v * (1 - s)) v) = v * (1 - s) := by
    rw [min_eq_left hpv.le, min_eq_right hpt]
  rw [rgbToHsv_eval _ _ _ v s hv hs0 hmax hmin, if_neg htne, if_neg (ne_of_lt hpv)]
  congr 2
  field_simp
  ring

/-- Round trip through the `i % 6 = 5` arm of `hsv_to_rgb` (the raw hue
comes out as `f - 1`; taking the fractional part restores it). -/
theorem roundtrip_core5 (s v f : ℚ) (hs0 : 0 < s) (hv : 0 < v)
    (hf0 : 0 ≤ f) (hf1 : f < 1) :
    colorsysRgbToHsv v (v * (1 - s)) (v * (1 - s * f))
      = (Int.fract ((5 + f) / 6), s, v) := by
  have hvs : (0:ℚ) < v * s := mul_pos hv hs0
  have hvs' : v * s ≠ 0 := ne_of_gt hvs
  have hpv : v * (1 - s) < v := by nlinarith
  have hqv : v * (1 - s * f) ≤ v := by nlinarith
  have hpq : v * (1 - s) ≤ v * (1 - s * f) := by nlinarith
  have hmax : max v (max (v * (1 - s)) (v * (1 - s * f))) = v := by
    rw [max_eq_right hpq, max_eq_left hqv]
  have hmin : min v (min (v * (1 - s)) (v * (1 - s * f))) = v * (1 - s) := by
    rw [min_eq_left hpq, min_eq_right hpv.le]
  rw [rgbToHsv_eval _ _ _ v s hv hs0 hmax hmin, if_pos rfl]
  have harg : ((v - v * (1 - s * f)) / (v * s) - (v - v * (1 - s)) / (v * s)) / 6
      = (5 + f) / 6 - ((1:ℤ):ℚ) := by
    push_cast
    field_simp
    ring
  rw [harg, Int.fract_sub_int]

/-- The hue returned by `colorsys.rgb_to_hsv` always lies in [0, 1). -/
theorem rgbToHsv_hue_bounds (x y z : ℚ) :
    0 ≤ (colorsysRgbToHsv x y z).1 ∧ (colorsysRgbToHsv x y z).1 < 1 := by
  simp only [colorsysRgbToHsv]
  split_ifs <;>
    first
      | exact ⟨le_refl 0, by norm_num⟩
      | exact ⟨Int.fract_nonneg _, Int.fract_lt_one _⟩

/-- For nonnegative channels, a nonzero saturation forces positive
saturation (at most 1) and positive value. -/
theorem rgbToHsv_sv_pos (x y z : ℚ) (hx : 0 ≤ x) (hy : 0 ≤ y) (hz : 0 ≤ z)
    (hs : (colorsysRgbToHsv x y z).2.1 ≠ 0) :
    0 < (colorsysRgbToHsv x y z).2.1 ∧ (colorsysRgbToHsv x y z).2.1 ≤ 1 ∧
      0 < (colorsysRgbToHsv x y z).2.2 := by
  simp only [colorsysRgbToHsv] at hs ⊢
  split_ifs at hs ⊢ with hc
  · exact absurd rfl hs
  all_goals {
    have hminmax : min x (min y z) ≤ max x (max y z) :=
      le_trans (min_le_left _ _) (le_max_left _ _)
    have hlt : min x (min y z) < max x (max y z) := lt_of_le_of_ne hminmax hc
    have hmin0 : 0 ≤ min x (min y z) := le_min hx (le_min hy hz)
    have hmax0 : 0 < max x (max y z) := lt_of_le_of_lt hmin0 hlt
    dsimp only
    refine ⟨div_pos (by linarith) hmax0, ?_, hmax0⟩
    rw [div_le_one hmax0]
    linarith
  }

/-- Exact-rational round trip: `rgb_to_hsv (hsv_to_rgb h s v) = (h, s, v)`
for `h` in [0, 1), positive saturation and positive value. -/
theorem hsv_roundtrip (h s v : ℚ) (h0 : 0 ≤ h) (h1 : h < 1)
    (hs0 : 0 < s) (hv : 0 < v) :
    colorsysRgbToHsv (colorsysHsvToRgb h s v).1 (colorsysHsvToRgb h s v).2.1
      (colorsysHsvToRgb h s v).2.2 = (h, s, v) := by
  have hsne : s ≠ 0 := ne_of_gt hs0
  have h60 : (0:ℚ) ≤ h * 6 := by linarith
  have htr : pyTrunc (h * 6) = ⌊h * 6⌋ := by
    unfold pyTrunc
    rw [if_neg (not_lt.mpr h60)]
  have hi0 : 0 ≤ ⌊h * 6⌋ := Int.floor_nonneg.mpr h60
  have hi6 : ⌊h * 6⌋ < 6 := Int.floor_lt.mpr (by push_cast; linarith)
  have hfl0 : (⌊h * 6⌋ : ℚ) ≤ h * 6 := Int.floor_le (h * 6)
  have hfl1 : h * 6 < (⌊h * 6⌋ : ℚ) + 1 := Int.lt_floor_add_one (h * 6)
  have hex : ⌊h * 6⌋ = 0 ∨ ⌊h * 6⌋ = 1 ∨ ⌊h * 6⌋ = 2 ∨ ⌊h * 6⌋ = 3 ∨ ⌊h * 6⌋ = 4
      ∨ ⌊h * 6⌋ = 5 := by omega
  have hfr : Int.fract h = h := Int.fract_eq_self.mpr ⟨h0, h1⟩
  rcases hex with hfl | hfl | hfl | hfl | hfl | hfl
  · rw [hfl] at hfl0 hfl1
    push_cast at hfl0 hfl1
    have hrgb : colorsysHsvToRgb h s v
        = (v, v * (1 - s * (1 - (h * 6 - 0))), v * (1 - s)) := by
      simp only [colorsysHsvToRgb]
      rw [if_neg hsne, htr, hfl]
      norm_num
    rw [hrgb]
    show colorsysRgbToHsv v (v * (1 - s * (1 - (h * 6 - 0)))) (v * (1 - s)) = (h, s, v)
    rw [roundtrip_core0 s v (h * 6 - 0) hs0 hv (by linarith) (by linarith)]
    have harg : (h * 6 - 0) / 6 = h := by ring
    rw [harg, hfr]
  · rw [hfl] at hfl0 hfl1
    push_cast at hfl0 hfl1
    have hrgb : colorsysHsvToRgb h s v
        = (v * (1 - s * (h * 6 - 1)), v, v * (1 - s)) := by
      simp only [colorsysHsvToRgb]
      rw [if_neg hsne, htr, hfl]
      norm_num
    rw [hrgb]
    show colorsysRgbToHsv (v * (1 - s * (h * 6 - 1))) v (v * (1 - s)) = (h, s, v)
    rw [roundtrip_core1 s v (h * 6 - 1) hs0 hv (by linarith) (by linarith)]
    have harg : (1 + (h * 6 - 1)) / 6 = h := by ring
    rw [harg, hfr]
  · rw [hfl] at hfl0 hfl1
    push_cast at hfl0 hfl1
    have hrgb : colorsysHsvToRgb h s v
        = (v * (1 - s), v, v * (1 - s * (1 - (h * 6 - 2)))) := by
      simp only [colorsysHsvToRgb]
      rw [if_neg hsne, htr, hfl]
      norm_num
    rw [hrgb]
    show colorsysRgbToHsv (v * (1 - s)) v (v * (1 - s * (1 - (h * 6 - 2)))) = (h, s, v)
    rw [roundtrip_core2 s v (h * 6 - 2) hs0 hv (by linarith) (by linarith)]
    have harg : (2 + (h * 6 - 2)) / 6 = h := by ring
    rw [harg, hfr]
  · rw [hfl] at hfl0 hfl1
    push_cast at hfl0 hfl1
    have hrgb : colorsysHsvToRgb h s v
        = (v * (1 - s), v * (1 - s * (h * 6 - 3)), v) := by
      simp only [colorsysHsvToRgb]
      rw [if_neg hsne, htr, hfl]
      norm_num
    rw [hrgb]
    show colorsysRgbToHsv (v * (1 - s)) (v * (1 - s * (h * 6 - 3))) v = (h, s, v)
    rw [roundtrip_core3 s v (h * 6 - 3) hs0 hv (by linarith) (by linarith)]
    have harg : (3 + (h * 6 - 3)) / 6 = h := by ring
    rw [harg, hfr]
  · rw [hfl] at hfl0 hfl1
    push_cast at hfl0 hfl1
    have hrgb : colorsysHsvToRgb h s v
        = (v * (1 - s * (1 - (h * 6 - 4))), v * (1 - s), v) := by
      simp only [colorsysHsvToRgb]
      rw [if_neg hsne, htr, hfl]
      norm_num
    rw [hrgb]
    show colorsysRgbToHsv (v * (1 - s * (1 - (h * 6 - 4)))) (v * (1 - s)) v = (h, s, v)
    rw [roundtrip_core4 s v (h * 6 - 4) hs0 hv (by linarith) (by linarith)]
    have harg : (4 + (h * 6 - 4)) / 6 = h := by ring
    rw [harg, hfr]
  · rw [hfl] at hfl0 hfl1
    push_cast at hfl0 hfl1
    have hrgb : colorsysHsvToRgb h s v
        = (v, v * (1 - s), v * (1 - s * (h * 6 - 5))) := by
      simp only [colorsysHsvToRgb]
      rw [if_neg hsne, htr, hfl]
      norm_num
    rw [hrgb]
    show colorsysRgbToHsv v (v * (1 - s)) (v * (1 - s * (h * 6 - 5))) = (h, s, v)
    rw [roundtrip_core5 s v (h * 6 - 5) hs0 hv (by linarith) (by linarith)]
    have harg : (5 + (h * 6 - 5)) / 6 = h := by ring
    rw [harg, hfr]

/-- Counterexample to C6 as stated: the grey pixel (122,122,122) with
alpha 255 is classified as blue at tolerance 123 (it is within the
per-channel tolerance of (0,122,204)), but its saturation is 0, so the
preserve-brightness rewrite leaves it grey: the written pixel's hue is
0, not the hue (1/3) of the green target color. -/
theorem C6_counterexample :
    is_blue_pixel 122 122 122 123 = true
    ∧ processPixel (0, 255, 0) 123 true (122, 122, 122, 255) = (122, 122, 122, 255)
    ∧ (rgb_to_hsv ((122:ℕ):ℚ) ((122:ℕ):ℚ) ((122:ℕ):ℚ)).1
        ≠ (rgb_to_hsv ((0:ℕ):ℚ) ((255:ℕ):ℚ) ((0:ℕ):ℚ)).1 := by
  have ho : rgb_to_hsv ((122:ℕ):ℚ) ((122:ℕ):ℚ) ((122:ℕ):ℚ) = (0, 0, 122/255) := by
    norm_num [rgb_to_hsv, colorsysRgbToHsv, min_def, max_def]
  refine ⟨by decide, ?_, ?_⟩
  · have hn : ∀ th : ℚ, hsv_to_rgb th 0 (122/255) = (122, 122, 122) := fun th => by
      norm_num [hsv_to_rgb, colorsysHsvToRgb, pyTrunc, Int.floor_eq_iff]
    unfold processPixel
    dsimp only
    rw [if_neg (by decide), if_pos (by decide), if_pos rfl, ho]
    dsimp only
    rw [hn]
    decide
  · rw [ho]
    have hg : (rgb_to_hsv ((0:ℕ):ℚ) ((255:ℕ):ℚ) ((0:ℕ):ℚ)).1 = 1/3 := by
      norm_num [rgb_to_hsv, colorsysRgbToHsv, min_def, max_def, Int.fract,
        Int.floor_eq_iff]
    rw [hg]
    norm_num

/-- C6 amended: in preserve-brightness mode, for every pixel classified
as blue with nonzero alpha whose original saturation is nonzero, the
written pixel is exactly the 0-255 truncation of the exact color with
HSV (target hue, s, v), and that exact color's HSV is exactly the
target hue with the original saturation and value. (For grey blue
pixels, s = 0, the hue is not changed to the target hue: see the
counterexample.) -/
theorem C6_preserve_brightness_hue_shift (tr tg tb : Nat) (tol : Int) (r g b a : Nat)
    (ha : ¬(a = 0))
    (hblue : is_blue_pixel r g b tol = true)
    (hs : (rgb_to_hsv (r : ℚ) (g : ℚ) (b : ℚ)).2.1 ≠ 0) :
    processPixel (tr, tg, tb) tol true (r, g, b, a)
      = ((hsv_to_rgb (rgb_to_hsv (tr : ℚ) (tg : ℚ) (tb : ℚ)).1
            (rgb_to_hsv (r : ℚ) (g : ℚ) (b : ℚ)).2.1
            (rgb_to_hsv (r : ℚ) (g : ℚ) (b : ℚ)).2.2).1.toNat,
         (hsv_to_rgb (rgb_to_hsv (tr : ℚ) (tg : ℚ) (tb : ℚ)).1
            (rgb_to_hsv (r : ℚ) (g : ℚ) (b : ℚ)).2.1
            (rgb_to_hsv (r : ℚ) (g : ℚ) (b : ℚ)).2.2).2.1.toNat,
         (hsv_to_rgb (rgb_to_hsv (tr : ℚ) (tg : ℚ) (tb : ℚ)).1
            (rgb_to_hsv (r : ℚ) (g : ℚ) (b : ℚ)).2.1
            (rgb_to_hsv (r : ℚ) (g : ℚ) (b : ℚ)).2.2).2.2.toNat, a)
    ∧ colorsysRgbToHsv
        (colorsysHsvToRgb (rgb_to_hsv (tr : ℚ) (tg : ℚ) (tb : ℚ)).1
          (rgb_to_hsv (r : ℚ) (g : ℚ) (b : ℚ)).2.1
          (rgb_to_hsv (r : ℚ) (g : ℚ) (b : ℚ)).2.2).1
        (colorsysHsvToRgb (rgb_to_hsv (tr : ℚ) (tg : ℚ) (tb : ℚ)).1
          (rgb_to_hsv (r : ℚ) (g : ℚ) (b : ℚ)).2.1
          (rgb_to_hsv (r : ℚ) (g : ℚ) (b : ℚ)).2.2).2.1
        (colorsysHsvToRgb (rgb_to_hsv (tr : ℚ) (tg : ℚ) (tb : ℚ)).1
          (rgb_to_hsv (r : ℚ) (g : ℚ) (b : ℚ)).2.1
          (rgb_to_hsv (r : ℚ) (g : ℚ) (b : ℚ)).2.2).2.2
      = ((rgb_to_hsv (tr : ℚ) (tg : ℚ) (tb : ℚ)).1,
         (rgb_to_hsv (r : ℚ) (g : ℚ) (b : ℚ)).2.1,
         (rgb_to_hsv (r : ℚ) (g : ℚ) (b : ℚ)).2.2) := by
  constructor
  · unfold processPixel
    dsimp only
    rw [if_neg ha, if_pos hblue, if_pos rfl]
  · have hx : (0:ℚ) ≤ (r : ℚ) / 255 := by positivity
    have hy : (0:ℚ) ≤ (g : ℚ) / 255 := by positivity
    have hz : (0:ℚ) ≤ (b : ℚ) / 255 := by positivity
    have hhue := rgbToHsv_hue_bounds ((tr : ℚ) / 255) ((tg : ℚ) / 255) ((tb : ℚ) / 255)
    have hsv := rgbToHsv_sv_pos ((r : ℚ) / 255) ((g : ℚ) / 255) ((b : ℚ) / 255) hx hy hz hs
    exact hsv_roundtrip _ _ _ hhue.1 hhue.2 hsv.1 hsv.2.2

/-- Witness for C6: recoloring the reference blue (0,122,204) toward
red (255,0,0). -/
theorem C6_preserve_brightness_hue_shift_witness :
    colorsysRgbToHsv
        (colorsysHsvToRgb (rgb_to_hsv ((255:ℕ):ℚ) ((0:ℕ):ℚ) ((0:ℕ):ℚ)).1
          (rgb_to_hsv ((0:ℕ):ℚ) ((122:ℕ):ℚ) ((204:ℕ):ℚ)).2.1
          (rgb_to_hsv ((0:ℕ):ℚ) ((122:ℕ):ℚ) ((204:ℕ):ℚ)).2.2).1
        (colorsysHsvToRgb (rgb_to_hsv ((255:ℕ):ℚ) ((0:ℕ):ℚ) ((0:ℕ):ℚ)).1
          (rgb_to_hsv ((0:ℕ):ℚ) ((122:ℕ):ℚ) ((204:ℕ):ℚ)).2.1
          (rgb_to_hsv ((0:ℕ):ℚ) ((122:ℕ):ℚ) ((204:ℕ):ℚ)).2.2).2.1
        (colorsysHsvToRgb (rgb_to_hsv ((255:ℕ):ℚ) ((0:ℕ):ℚ) ((0:ℕ):ℚ)).1
          (rgb_to_hsv ((0:ℕ):ℚ) ((122:ℕ):ℚ) ((204:ℕ):ℚ)).2.1
          (rgb_to_hsv ((0:ℕ):ℚ) ((122:ℕ):ℚ) ((204:ℕ):ℚ)).2.2).2.2
      = ((rgb_to_hsv ((255:ℕ):ℚ) ((0:ℕ):ℚ) ((0:ℕ):ℚ)).1,
         (rgb_to_hsv ((0:ℕ):ℚ) ((122:ℕ):ℚ) ((204:ℕ):ℚ)).2.1,
         (rgb_to_hsv ((0:ℕ):ℚ) ((122:ℕ):ℚ) ((204:ℕ):ℚ)).2.2) :=
  (C6_preserve_brightness_hue_shift 255 0 0 30 0 122 204 255 (by decide) (by decide)
    (by norm_num [rgb_to_hsv, colorsysRgbToHsv, min_def, max_def])).2
